import Mathlib

/-!
# Verification of the frontend-framework reconciliation core

This file gives a shallow embedding, in Lean 4, of the reconciliation core of
the `frontend-framework` repository: the generic array-diff utilities
(`utils/arrays.js`), virtual-node equality (`nodes-equal.js`), the component
runtime's prop/state updates (`component.js`), the mount engine's insertion
contract and hook scheduling (`mount-dom.js`), the deferred-task scheduler
(`scheduler.js`), and the child-list move handling of the patch engine
(`patch-dom.js`).  Each JavaScript function is translated into an executable
Lean definition, and the behavioural properties stated in the repository's
specification are proved or refuted against those definitions.

JavaScript arrays are modelled as `List`, objects/maps as association lists,
`undefined` as the `default` value of an `Inhabited` type where a read can
fall off the end of an array, and thrown errors as explicit error values.
-/

set_option linter.unusedSectionVars false

namespace FrontendFramework

/-! ## Splice helpers

`Array.prototype.splice(i, 0, x)` inserts `x` before position `i`, clamping
`i` to the array length (an out-of-range index appends).  `splice(i, 1)`
removes the element at `i` (removing nothing when `i` is out of range), which
is exactly `List.eraseIdx`. -/

/-- JS `arr.splice(i, 0, x)`: insert `x` at position `i`, appending when `i`
is at or beyond the length. -/
def spliceInsert (l : List α) (i : Nat) (x : α) : List α :=
  l.take i ++ x :: l.drop i

/-! ## `utils/arrays.js`: count maps and `arraysDiff`

JS `Map` objects keyed by array items are modelled as association lists in
insertion order: `Map.set` overwrites the value of an existing key in place
and appends a fresh key at the end, `Map.get` returns `none` for a missing
key, `Map.has` is `isSome`, and `Array.from(map.keys())` is the list of first
components. -/

/-- JS `map.get(key)`. -/
def mapGet [DecidableEq α] (m : List (α × Nat)) (k : α) : Option Nat :=
  (m.find? (fun e => decide (e.1 = k))).map (fun e => e.2)

/-- JS `map.set(key, value)`: overwrite in place, or append a new entry. -/
def mapSet [DecidableEq α] (m : List (α × Nat)) (k : α) (v : Nat) : List (α × Nat) :=
  match m with
  | [] => [(k, v)]
  | e :: rest => if e.1 = k then (k, v) :: rest else e :: mapSet rest k v

/-- JS `Array.from(map.keys())`. -/
def mapKeys (m : List (α × Nat)) : List α := m.map (fun e => e.1)

/-- The loop body of `makeCountMap`: `map.set(item, (map.get(item) || 0) + 1)`
folded over the array. -/
def makeCountMapGo [DecidableEq α] (m : List (α × Nat)) : List α → List (α × Nat)
  | [] => m
  | x :: xs => makeCountMapGo (mapSet m x ((mapGet m x).getD 0 + 1)) xs

/-- `makeCountMap(array)` from `utils/arrays.js`. -/
def makeCountMap [DecidableEq α] (l : List α) : List (α × Nat) := makeCountMapGo [] l

/-- Result record of `mapsDiff`. -/
structure MapsDiffResult (α : Type) where
  added : List α
  removed : List α
  updated : List α
deriving DecidableEq

/-- `mapsDiff(oldMap, newMap)` from `utils/arrays.js`. -/
def mapsDiff [DecidableEq α] (oldMap newMap : List (α × Nat)) : MapsDiffResult α where
  added := (mapKeys newMap).filter (fun key => (mapGet oldMap key).isNone)
  removed := (mapKeys oldMap).filter (fun key => (mapGet newMap key).isNone)
  updated := (mapKeys newMap).filter
    (fun key => (mapGet oldMap key).isSome && decide (mapGet oldMap key ≠ mapGet newMap key))

/-- Result record of `arraysDiff`. -/
structure ArraysDiffResult (α : Type) where
  added : List α
  removed : List α
deriving DecidableEq

/-- `arraysDiff(oldArray, newArray)` from `utils/arrays.js`.  The
updated-count loop reads both `oldCount` and `newCount` from `oldsCount`
(source line `const newCount = oldsCount.get(key);`), exactly as the source
does. -/
def arraysDiff [DecidableEq α] (oldArray newArray : List α) : ArraysDiffResult α :=
  let oldsCount := makeCountMap oldArray
  let newsCount := makeCountMap newArray
  let diff := mapsDiff oldsCount newsCount
  let added := diff.added.flatMap (fun key => List.replicate ((mapGet newsCount key).getD 0) key)
  let removed := diff.removed.flatMap (fun key => List.replicate ((mapGet oldsCount key).getD 0) key)
  let acc := diff.updated.foldl (fun (acc : List α × List α) key =>
    let oldCount : Int := ((mapGet oldsCount key).getD 0 : Nat)
    let newCount : Int := ((mapGet oldsCount key).getD 0 : Nat)
    let delta := newCount - oldCount
    if delta > 0 then (acc.1 ++ List.replicate delta.toNat key, acc.2)
    else (acc.1, acc.2 ++ List.replicate (-delta).toNat key)) (added, removed)
  ⟨acc.1, acc.2⟩

/-! ## `utils/arrays.js`: `ArrayWithOriginalIndices` and `arraysDiffSequence`

The working copy of the old array together with each element's original index
(`-1` marking inserted elements, as in the source).  JS reads of
`array[index]` that can fall out of range are modelled with `List.getD` and a
`default` element standing for `undefined`; in the reachable states of the
algorithm every such read is in range. -/

/-- The `ARRAY_DIFF_OP` operation records emitted by `arraysDiffSequence`. -/
inductive DiffOp (α : Type) where
  | add (index : Nat) (item : α)
  | remove (index : Nat) (item : α)
  | move (originalIndex : Int) (fromIndex : Nat) (index : Nat) (item : α)
  | noop (originalIndex : Int) (index : Nat) (item : α)
deriving DecidableEq

/-- `op === ARRAY_DIFF_OP.ADD`. -/
def DiffOp.isAdd : DiffOp α → Bool
  | .add _ _ => true
  | _ => false

/-- `op === ARRAY_DIFF_OP.REMOVE`. -/
def DiffOp.isRemove : DiffOp α → Bool
  | .remove _ _ => true
  | _ => false

/-- `op === ARRAY_DIFF_OP.MOVE || op === ARRAY_DIFF_OP.NOOP`. -/
def DiffOp.isMoveOrNoop : DiffOp α → Bool
  | .move _ _ _ _ => true
  | .noop _ _ _ => true
  | _ => false

/-- The private state of a JS `ArrayWithOriginalIndices` instance. -/
structure AWOI (α : Type) where
  array : List α
  originalIndices : List Int
deriving DecidableEq

/-- The `ArrayWithOriginalIndices` constructor. -/
def AWOI.init (arr : List α) : AWOI α :=
  ⟨arr, (List.range arr.length).map Int.ofNat⟩

/-- The scanning loop inside `findIndexFrom`, carrying the running index. -/
def findIdxFromAux (eq : α → α → Bool) (item : α) : List α → Nat → Option Nat
  | [], _ => none
  | b :: bs, i => if eq item b then some i else findIdxFromAux eq item bs (i + 1)

/-- `findIndexFrom(item, fromIndex)`: first position `i ≥ fromIndex` whose
element equal-matches `item`, `none` standing for the JS `-1`. -/
def AWOI.findIndexFrom (s : AWOI α) (eq : α → α → Bool) (item : α) (fromIndex : Nat) :
    Option Nat :=
  findIdxFromAux eq item (s.array.drop fromIndex) fromIndex

/-- `isRemoval(index, newArray)`: the element at `index` (if any) matches no
element anywhere in `newArray` (the source scans the whole new array with
`findIndex`). -/
def AWOI.isRemoval (s : AWOI α) (eq : α → α → Bool) (index : Nat) (newArray : List α) : Bool :=
  match s.array[index]? with
  | none => false
  | some item => (newArray.find? (fun newItem => eq item newItem)).isNone

/-- `removeItem(index)`: emit a REMOVE operation and splice the element out of
both internal arrays. -/
def AWOI.removeItem [Inhabited α] (s : AWOI α) (index : Nat) : DiffOp α × AWOI α :=
  (.remove index (s.array.getD index default),
   ⟨s.array.eraseIdx index, s.originalIndices.eraseIdx index⟩)

/-- `isNoop(index, newArray)`: the element at `index` equal-matches the new
array's element at the same position. -/
def AWOI.isNoop [Inhabited α] (s : AWOI α) (eq : α → α → Bool) (index : Nat)
    (newArray : List α) : Bool :=
  match s.array[index]? with
  | none => false
  | some item => eq item (newArray.getD index default)

/-- `noopItem(index)`: a NOOP operation carrying the original index. -/
def AWOI.noopItem [Inhabited α] (s : AWOI α) (index : Nat) : DiffOp α :=
  .noop (s.originalIndices.getD index (-1)) index (s.array.getD index default)

/-- `isAddition(item, fromIdx)`: no equal-match at or after `fromIdx`. -/
def AWOI.isAddition (s : AWOI α) (eq : α → α → Bool) (item : α) (fromIdx : Nat) : Bool :=
  (s.findIndexFrom eq item fromIdx).isNone

/-- `addItem(item, index)`: emit an ADD operation and splice the item into the
working copy, recording original index `-1`. -/
def AWOI.addItem (s : AWOI α) (item : α) (index : Nat) : DiffOp α × AWOI α :=
  (.add index item,
   ⟨spliceInsert s.array index item, spliceInsert s.originalIndices index (-1)⟩)

/-- `moveItem(item, toIndex)`: find the equal-match at or after `toIndex`,
emit a MOVE operation, and relocate the matched element (and its original
index) to `toIndex`.  The source assumes the match exists — the algorithm
only calls this after `isAddition` returned false — so the `getD 0` fallback
is unreachable there. -/
def AWOI.moveItem [Inhabited α] (s : AWOI α) (eq : α → α → Bool) (item : α) (toIndex : Nat) :
    DiffOp α × AWOI α :=
  let fromIndex := (s.findIndexFrom eq item toIndex).getD 0
  let movedItem := s.array.getD fromIndex default
  let originalIndex := s.originalIndices.getD fromIndex (-1)
  (.move originalIndex fromIndex toIndex movedItem,
   ⟨spliceInsert (s.array.eraseIdx fromIndex) toIndex movedItem,
    spliceInsert (s.originalIndices.eraseIdx fromIndex) toIndex originalIndex⟩)

/-- The `while (this.length > index)` loop of `removeItemsAfter`, with fuel:
each iteration removes one element, so `s.array.length` iterations always
suffice. -/
def removeItemsAfterGo [Inhabited α] : Nat → AWOI α → Nat → List (DiffOp α) × AWOI α
  | 0, s, _ => ([], s)
  | fuel + 1, s, index =>
    if s.array.length > index then
      let r := s.removeItem index
      let rest := removeItemsAfterGo fuel r.2 index
      (r.1 :: rest.1, rest.2)
    else ([], s)

/-- `removeItemsAfter(index)`: remove every element at or beyond `index`. -/
def AWOI.removeItemsAfter [Inhabited α] (s : AWOI α) (index : Nat) :
    List (DiffOp α) × AWOI α :=
  removeItemsAfterGo s.array.length s index

/-- The `for (index = 0; index < newArray.length; index++)` loop of
`arraysDiffSequence`, with `index--; continue` in the removal branch modelled
as recursing at the same index.  The loop terminates because the measure
`2 * (newArray.length - index) + s.array.length` strictly decreases at every
iteration; the fuel passed by `arraysDiffSequence` exceeds the initial
measure, so the `0` case is never reached from there (see
`diffLoop_fuel_congr`). -/
def diffLoop [Inhabited α] (eq : α → α → Bool) (newArray : List α) :
    Nat → AWOI α → Nat → List (DiffOp α) × AWOI α
  | 0, s, _ => ([], s)
  | fuel + 1, s, index =>
    if index < newArray.length then
      if s.isRemoval eq index newArray then
        let r := s.removeItem index
        let rest := diffLoop eq newArray fuel r.2 index
        (r.1 :: rest.1, rest.2)
      else if s.isNoop eq index newArray then
        let op := s.noopItem index
        let rest := diffLoop eq newArray fuel s (index + 1)
        (op :: rest.1, rest.2)
      else
        let item := newArray.getD index default
        if s.isAddition eq item index then
          let r := s.addItem item index
          let rest := diffLoop eq newArray fuel r.2 (index + 1)
          (r.1 :: rest.1, rest.2)
        else
          let r := s.moveItem eq item index
          let rest := diffLoop eq newArray fuel r.2 (index + 1)
          (r.1 :: rest.1, rest.2)
    else ([], s)

/-- `arraysDiffSequence(oldArray, newArray, equalsFn)` from
`utils/arrays.js`: run the scanning loop over the new array, then remove
every leftover tail element of the working copy. -/
def arraysDiffSequence [Inhabited α] (oldArray newArray : List α) (eq : α → α → Bool) :
    List (DiffOp α) :=
  let s0 : AWOI α := AWOI.init oldArray
  let fuel := 2 * newArray.length + oldArray.length + 1
  let r := diffLoop eq newArray fuel s0 0
  let tail := r.2.removeItemsAfter newArray.length
  r.1 ++ tail.1

/-! ## Applying an emitted operation list (the round-trip of claim C1)

`applyOp` applies one operation to a plain list exactly as the claim reads
the operations: REMOVE splices out the element at `index`, ADD splices the
item in at `index`, MOVE relocates the matched item (recorded in the
operation) from `fromIndex` to `index`, NOOP leaves the list alone. -/

/-- Apply a single diff operation to a sequence. -/
def applyOp (l : List α) : DiffOp α → List α
  | .remove index _ => l.eraseIdx index
  | .add index item => spliceInsert l index item
  | .move _ fromIndex index item => spliceInsert (l.eraseIdx fromIndex) index item
  | .noop _ _ _ => l

/-- Apply an operation list left to right. -/
def applyOps (ops : List (DiffOp α)) (l : List α) : List α :=
  ops.foldl applyOp l

/-! ## Lemmas about the count maps -/

/-! ## `h.js` / `nodes-equal.js`: virtual nodes and node equality

A virtual node is a record with a `type` tag (`DOM_TYPES`), and per-variant
payload: a text node holds a string `value`; an element holds a string `tag`,
a `props` bag and `children`; a fragment and a slot hold only `children`; a
component-reference holds the component definition in its `tag` field (a JS
class reference, modelled by a numeric identity), a `props` bag and external
`children`.  Prop bags are string-keyed association lists; `props.key` reads
the optional identity key (`none` standing for `undefined`, and
`undefined === undefined` being true in JS). -/

/-- The `DOM_TYPES` constants from `h.js`. -/
inductive DomType where
  | text
  | element
  | fragment
  | component
  | slot
deriving DecidableEq

/-- A property bag: string keys to string values. -/
abbrev Props := List (String × String)

/-- Reading a property from a bag (`props.k`); `none` is JS `undefined`. -/
def lookupProp (props : Props) (k : String) : Option String :=
  (props.find? (fun e => e.1 == k)).map (fun e => e.2)

/-- `props.key`, the optional identity key. -/
def propsKey (props : Props) : Option String := lookupProp props "key"

/-- Virtual nodes. -/
inductive VNode where
  | text (value : String)
  | element (tag : String) (props : Props) (children : List VNode)
  | fragment (children : List VNode)
  | component (tag : Nat) (props : Props) (children : List VNode)
  | slot (children : List VNode)

/-- The `type` field of a virtual node. -/
def VNode.domType : VNode → DomType
  | .text _ => .text
  | .element _ _ _ => .element
  | .fragment _ => .fragment
  | .component _ _ _ => .component
  | .slot _ => .slot

/-- `areNodesEqual(nodeOne, nodeTwo)` from `nodes-equal.js`: different types
are never equal; element nodes compare tag and key; component nodes compare
the component definition and key; every other same-type pair is equal. -/
def areNodesEqual (nodeOne nodeTwo : VNode) : Bool :=
  if nodeOne.domType ≠ nodeTwo.domType then false
  else
    match nodeOne, nodeTwo with
    | .element tagOne propsOne _, .element tagTwo propsTwo _ =>
        tagOne == tagTwo && propsKey propsOne == propsKey propsTwo
    | .component compOne propsOne _, .component compTwo propsTwo _ =>
        compOne == compTwo && propsKey propsOne == propsKey propsTwo
    | _, _ => true

/-! ## `component.js`: prop/state updates on a component instance

A component instance carries externally-supplied `props`, local `state`,
external slot `children`, and a mounted flag; `instId` models the JS object
identity of the instance, so "the instance is not recreated" is expressible.
The instance's rendered subtree (`#vdom`) is what `#patch()` re-renders when
mounted; that patching never touches `props`, `state` or the identity, so the
model keeps those fields unchanged in the mounted branch. -/

/-- JS object spread `{...oldProps, ...newProps}` on string-keyed bags: keys
of the old bag keep their position, with values overridden by the new bag
where present; keys only in the new bag are appended in their order. -/
def mergeProps (oldProps newProps : Props) : Props :=
  oldProps.map (fun e => (e.1, (lookupProp newProps e.1).getD e.2)) ++
    newProps.filter (fun e => (lookupProp oldProps e.1).isNone)

/-- A backing component instance (`component.js`). -/
structure CompInst where
  instId : Nat
  props : Props
  state : Props
  children : List VNode
  isMounted : Bool

/-- The private `#patch()` method: throws `'Component is not mounted'` when
the instance is unmounted; when mounted it re-renders and patches the
rendered subtree, which leaves `props`, `state` and the identity as they
are. -/
def patchInternal (c : CompInst) : CompInst × Option String :=
  if c.isMounted then (c, none) else (c, some "Component is not mounted")

/-- `updateProps(props)`: `this.props = {...this.props, ...props}` and then
`this.#patch()`. -/
def updateProps (c : CompInst) (newProps : Props) : CompInst × Option String :=
  patchInternal { c with props := mergeProps c.props newProps }

/-- `updateState(state)`: `this.state = {...this.state, ...state}` and then
`this.#patch()`.  The merge happens before `#patch()` can throw. -/
def updateState (c : CompInst) (newState : Props) : CompInst × Option String :=
  patchInternal { c with state := mergeProps c.state newState }

/-- `setExternalContent(children)`: store the external slot content. -/
def setExternalContent (c : CompInst) (children : List VNode) : CompInst :=
  { c with children := children }

/-- `patchComponent(oldVdom, newVdom)` from `patch-dom.js`: forward the new
external children and the new props into the *existing* instance
(`component.setExternalContent(children); component.updateProps(props)`). -/
def patchComponent (c : CompInst) (newChildren : List VNode) (newProps : Props) :
    CompInst × Option String :=
  updateProps (setExternalContent c newChildren) newProps

/-! ## `mount-dom.js`: the `insert` position contract

The container's current children are a list of live units (modelled by
numeric identities); `insert` returns the new child list or the thrown
error. -/

/-- `insert(el, parentEl, index)` from `mount-dom.js`: `null` appends, a
negative index throws, an index at or beyond the child count appends, and
any other index inserts before the child currently at that index. -/
def insert (el : Nat) (parentChildren : List Nat) (index : Option Int) :
    Except String (List Nat) :=
  match index with
  | none => .ok (parentChildren ++ [el])
  | some i =>
    if i < 0 then
      .error ("Index must be a positive integer, got " ++ toString i)
    else if i.toNat ≥ parentChildren.length then
      .ok (parentChildren ++ [el])
    else
      .ok (spliceInsert parentChildren i.toNat el)

/-! ## `mount-dom.js` + `scheduler.js`: hook scheduling during mount

For hook ordering only the tree shape and the scheduler queue matter.  A
`MountTree` is the tree `mountDOM` recurses over: for a component-reference
node, `createComponentNode` instantiates the component and mounts the
subtree produced by its `render()` (held here in the `rendered` field), and
only after `createComponentNode` returns does `mountDOM` run
`enqueueJob(() => vdom.component.onMounted())`.  The queue records enqueued
hook identities in FIFO order and which hooks have actually been invoked;
`mountDOM` never invokes a hook itself. -/

/-- The tree shape `mountDOM` recurses over; `component id rendered` is a
component-reference node whose instance's `render()` yields `rendered`. -/
inductive MountTree where
  | text (value : String)
  | element (tag : String) (children : List MountTree)
  | fragment (children : List MountTree)
  | component (id : Nat) (rendered : MountTree)

/-- The deferred-task queue of `scheduler.js`, restricted to mount-complete
hooks: `jobs` in FIFO submission order, `fired` the hooks already invoked. -/
structure HookQueue where
  jobs : List Nat
  fired : List Nat
deriving DecidableEq

/-- `enqueueJob`: push at the back of the queue. -/
def enqueueHook (q : HookQueue) (id : Nat) : HookQueue :=
  { q with jobs := q.jobs ++ [id] }

mutual

/-- The effect of `mountDOM(vdom, ...)` on the hook queue: text mounts
nothing; element/fragment children are mounted left to right; a
component-reference first mounts its rendered subtree (inside
`createComponentNode` / `component.mount`) and then enqueues its own
mount-complete hook. -/
def mountDOMHooks : MountTree → HookQueue → HookQueue
  | .text _, q => q
  | .element _ children, q => mountChildrenHooks children q
  | .fragment children, q => mountChildrenHooks children q
  | .component id rendered, q => enqueueHook (mountDOMHooks rendered q) id

/-- Mounting a child list left to right. -/
def mountChildrenHooks : List MountTree → HookQueue → HookQueue
  | [], q => q
  | c :: cs, q => mountChildrenHooks cs (mountDOMHooks c q)

end

/-- The order in which mount-complete hooks of a tree are enqueued. -/
def hookOrder (t : MountTree) : List Nat :=
  (mountDOMHooks t ⟨[], []⟩).jobs

/-- The microtask checkpoint after the synchronous mount returns:
`processJobs` drains the queue in FIFO order, invoking every queued hook. -/
def drainQueue (q : HookQueue) : HookQueue :=
  ⟨[], q.fired ++ q.jobs⟩

/-! ## `scheduler.js`: `processJobs` and failure handling

A queued job is identified by a number and behaves in one of three ways when
run: it returns normally, it returns an awaitable that later rejects with a
message, or it throws synchronously with a message (which is what happens
when a user `onMounted`/`onUnmounted` hook raises, since
`Promise.resolve(onMounted.call(this))` evaluates the hook before the
promise can capture anything). -/

/-- Behaviour of one queued job. -/
inductive JobBehavior where
  | ok
  | rejected (msg : String)
  | throws (msg : String)
deriving DecidableEq

/-- The scheduler's module state plus observation channels: the queue, the
`isScheduled` flag, the jobs whose bodies have run, and the messages logged
through the rejection handler (`console.error`). -/
structure SchedulerState where
  jobs : List (Nat × JobBehavior)
  isScheduled : Bool
  executed : List Nat
  reported : List String
deriving DecidableEq

/-- The `while (jobs.length > 0)` loop of `processJobs`: shift the front
job and run it.  A rejected awaitable is reported via the diagnostic channel
and the loop continues; a synchronous throw propagates out of the loop at
once (fourth component), leaving the remaining jobs unprocessed.  (In the
source the rejection handler itself runs in a later microtask; the model
records the report at processing time, which preserves both what gets
reported and which jobs execute.) -/
def processJobsGo :
    List (Nat × JobBehavior) → List Nat → List String →
      List (Nat × JobBehavior) × List Nat × List String × Option String
  | [], executed, reported => ([], executed, reported, none)
  | (id, b) :: rest, executed, reported =>
    match b with
    | .throws msg => (rest, executed ++ [id], reported, some msg)
    | .ok => processJobsGo rest (executed ++ [id]) reported
    | .rejected msg =>
        processJobsGo rest (executed ++ [id]) (reported ++ ["[scheduler]: " ++ msg])

/-- `processJobs()` from `scheduler.js`.  On normal completion the trailing
`isScheduled = false` reset runs; when a job throws synchronously the
exception escapes the function, so the reset is skipped and `isScheduled`
keeps its old value. -/
def processJobs (s : SchedulerState) : SchedulerState × Option String :=
  let r := processJobsGo s.jobs s.executed s.reported
  match r.2.2.2 with
  | none => (⟨r.1, false, r.2.1, r.2.2.1⟩, none)
  | some msg => (⟨r.1, s.isScheduled, r.2.1, r.2.2.1⟩, some msg)

/-! ## `patch-dom.js`: the MOVE case of `patchChildren`

Only the shape of the emitted live-environment actions matters: live units
are numeric identities, and the trace records each `parentEl.insertBefore`
and each recursive `patchDOM` call in order. -/

/-- One live-environment action performed by the MOVE case. -/
inductive DomAction where
  | insertBeforeEl (el : Nat) (ref : Option Nat)
  | patchCall
deriving DecidableEq

/-- `isComponent(oldChild) ? oldChild.component.elements : [oldChild.el]`:
the live units a moved child owns. -/
def moveElements (isComponentNode : Bool) (componentElements : List Nat) (el : Nat) :
    List Nat :=
  if isComponentNode then componentElements else [el]

/-- The MOVE case body of `patchChildren` in `patch-dom.js`, as an action
trace.  The source iterates `elementsToMove.forEach((el) => {...})` with
*both* the `insertBefore` and the recursive `patchDOM` call inside the
callback, so the patch runs once per moved live unit, interleaved with the
moves. -/
def patchChildrenMoveTrace (elementsToMove : List Nat) (elAtTargetIndex : Option Nat) :
    List DomAction :=
  elementsToMove.flatMap
    (fun el => [DomAction.insertBeforeEl el elAtTargetIndex, DomAction.patchCall])

/-- Modelled from the spec: the specified MOVE handling relocates all of the
moved item's live units first and then patches the item's old-vs-new content
exactly once. -/
def patchChildrenMoveTraceSpec (elementsToMove : List Nat) (elAtTargetIndex : Option Nat) :
    List DomAction :=
  elementsToMove.map (fun el => DomAction.insertBeforeEl el elAtTargetIndex) ++
    [DomAction.patchCall]

/-! ## Lemmas about the splice helpers -/

theorem spliceInsert_length (l : List α) (i : Nat) (x : α) :
    (spliceInsert l i x).length = l.length + 1 := by
  simp [spliceInsert]
  omega

theorem spliceInsert_take (l : List α) (i : Nat) (x : α) (hi : i ≤ l.length) :
    (spliceInsert l i x).take i = l.take i := by
  have hlen : (l.take i).length = i := by simp [hi]
  simp [spliceInsert, List.take_append_eq_append_take, hlen]

theorem spliceInsert_take_succ (l : List α) (i : Nat) (x : α) (hi : i ≤ l.length) :
    (spliceInsert l i x).take (i + 1) = l.take i ++ [x] := by
  have hlen : (l.take i).length = i := by simp [hi]
  simp [spliceInsert, List.take_append_eq_append_take, hlen]

theorem eraseIdx_take (l : List α) (i j : Nat) (hij : i ≤ j) :
    (l.eraseIdx j).take i = l.take i := by
  rw [List.eraseIdx_eq_take_drop_succ]
  rcases Nat.le_total j l.length with hj | hj
  · have hlen : (l.take j).length = j := by simp [hj]
    simp [List.take_append_eq_append_take, hlen, List.take_take,
      Nat.min_eq_left hij, Nat.sub_eq_zero_of_le hij]
  · have : l.drop (j + 1) = [] := by
      apply List.drop_eq_nil_of_le; omega
    simp [this, List.take_take, Nat.min_eq_left hij]

theorem eraseIdx_length_of_lt (l : List α) (i : Nat) (h : i < l.length) :
    (l.eraseIdx i).length = l.length - 1 := by
  simp [List.length_eraseIdx, h]

theorem take_eraseIdx_self (l : List α) (n : Nat) :
    (l.eraseIdx n).take n = l.take n := eraseIdx_take l n n le_rfl

theorem mapGet_nil [DecidableEq α] (k : α) : mapGet ([] : List (α × Nat)) k = none := rfl

theorem mapGet_cons [DecidableEq α] (e : α × Nat) (m : List (α × Nat)) (k : α) :
    mapGet (e :: m) k = if e.1 = k then some e.2 else mapGet m k := by
  by_cases h : e.1 = k <;> simp [mapGet, List.find?, h]

theorem mapGet_mapSet [DecidableEq α] (m : List (α × Nat)) (k : α) (v : Nat) (q : α) :
    mapGet (mapSet m k v) q = if q = k then some v else mapGet m q := by
  induction m with
  | nil =>
    by_cases h : k = q
    · simp [mapSet, mapGet_cons, mapGet_nil, h]
    · have h' : ¬q = k := fun hh => h hh.symm
      simp [mapSet, mapGet_cons, mapGet_nil, h, h']
  | cons e rest ih =>
    by_cases he : e.1 = k
    · by_cases h : k = q
      · simp [mapSet, he, mapGet_cons, h]
      · have h' : ¬q = k := fun hh => h hh.symm
        have he' : ¬e.1 = q := fun hh => h (he.symm.trans hh)
        simp [mapSet, he, mapGet_cons, h, h', he']
    · by_cases hq : e.1 = q
      · have hqk : ¬q = k := fun h => he (hq.trans h)
        simp [mapSet, he, mapGet_cons, hq, hqk]
      · simp [mapSet, he, mapGet_cons, hq, ih]

theorem mapGet_isSome_iff_mem_keys [DecidableEq α] (m : List (α × Nat)) (k : α) :
    (mapGet m k).isSome ↔ k ∈ mapKeys m := by
  induction m with
  | nil => simp [mapGet_nil, mapKeys]
  | cons e rest ih =>
    rw [mapGet_cons]
    by_cases h : e.1 = k
    · simp [mapKeys, h]
    · have h' : ¬k = e.1 := fun hh => h hh.symm
      simp [mapKeys, h, h', ih]

theorem mapGet_makeCountMapGo_isSome [DecidableEq α] (l : List α) (m : List (α × Nat)) (k : α) :
    (mapGet (makeCountMapGo m l) k).isSome ↔ (mapGet m k).isSome ∨ k ∈ l := by
  induction l generalizing m with
  | nil => simp [makeCountMapGo]
  | cons x xs ih =>
    have hstep : (mapGet (mapSet m x ((mapGet m x).getD 0 + 1)) k).isSome
        ↔ (k = x ∨ (mapGet m k).isSome) := by
      rw [mapGet_mapSet]; by_cases h : k = x <;> simp [h]
    rw [makeCountMapGo, ih, hstep]
    simp [List.mem_cons]
    tauto

theorem mapGet_makeCountMap_isSome [DecidableEq α] (l : List α) (k : α) :
    (mapGet (makeCountMap l) k).isSome ↔ k ∈ l := by
  rw [makeCountMap, mapGet_makeCountMapGo_isSome, mapGet_nil]
  simp

/-- The updated-count loop of `arraysDiff` is the identity: because the
source reads both counts from `oldsCount`, every `delta` is zero and both
pushes are empty. -/
theorem arraysDiff_updated_fold_id [DecidableEq α] (oldsCount : List (α × Nat)) (keys : List α)
    (acc : List α × List α) :
    keys.foldl (fun (acc : List α × List α) key =>
      let oldCount : Int := ((mapGet oldsCount key).getD 0 : Nat)
      let newCount : Int := ((mapGet oldsCount key).getD 0 : Nat)
      let delta := newCount - oldCount
      if delta > 0 then (acc.1 ++ List.replicate delta.toNat key, acc.2)
      else (acc.1, acc.2 ++ List.replicate (-delta).toNat key)) acc = acc := by
  induction keys generalizing acc with
  | nil => rfl
  | cons key keys ih => rw [List.foldl_cons]; simp

/-- **C9.** Every item `arraysDiff` reports as added occurs in the new array
and nowhere in the old array, and every item reported as removed occurs in
the old array and nowhere in the new array; the updated-count branch
contributes nothing because its delta is computed from the old count map on
both sides. -/
theorem arraysDiff_added_removed_disjoint [DecidableEq α] (oldArray newArray : List α) (x : α) :
    (x ∈ (arraysDiff oldArray newArray).added → x ∈ newArray ∧ x ∉ oldArray) ∧
    (x ∈ (arraysDiff oldArray newArray).removed → x ∈ oldArray ∧ x ∉ newArray) := by
  simp only [arraysDiff, arraysDiff_updated_fold_id]
  constructor
  · intro hx
    simp only [mapsDiff, List.mem_flatMap, List.mem_filter] at hx
    obtain ⟨key, ⟨hmem, hnone⟩, hrep⟩ := hx
    obtain rfl := List.eq_of_mem_replicate hrep
    refine ⟨?_, ?_⟩
    · exact (mapGet_makeCountMap_isSome newArray x).1
        ((mapGet_isSome_iff_mem_keys _ x).2 hmem)
    · intro hold
      have := (mapGet_makeCountMap_isSome oldArray x).2 hold
      rw [Option.isNone_iff_eq_none] at hnone
      rw [hnone] at this
      exact absurd this (by simp)
  · intro hx
    simp only [mapsDiff, List.mem_flatMap, List.mem_filter] at hx
    obtain ⟨key, ⟨hmem, hnone⟩, hrep⟩ := hx
    obtain rfl := List.eq_of_mem_replicate hrep
    refine ⟨?_, ?_⟩
    · exact (mapGet_makeCountMap_isSome oldArray x).1
        ((mapGet_isSome_iff_mem_keys _ x).2 hmem)
    · intro hnew
      have := (mapGet_makeCountMap_isSome newArray x).2 hnew
      rw [Option.isNone_iff_eq_none] at hnone
      rw [hnone] at this
      exact absurd this (by simp)

/-- Witness for `arraysDiff_added_removed_disjoint` at a concrete input:
`arraysDiff [1,1,2] [1,3]` reports `3` as added, and indeed `3` is in the new
array and not in the old one. -/
theorem arraysDiff_added_removed_disjoint_witness :
    (3 : Nat) ∈ [1, 3] ∧ (3 : Nat) ∉ [1, 1, 2] :=
  (arraysDiff_added_removed_disjoint [1, 1, 2] [1, 3] 3).1 (by decide)

/-! ## Lemmas about `arraysDiffSequence` (claim C1) -/

theorem findIdxFromAux_some (eq : α → α → Bool) (item : α) :
    ∀ (l : List α) (i j : Nat), findIdxFromAux eq item l i = some j →
      i ≤ j ∧ ∃ x, l[j - i]? = some x ∧ eq item x = true := by
  intro l
  induction l with
  | nil => intro i j h; simp [findIdxFromAux] at h
  | cons b bs ih =>
    intro i j h
    rw [findIdxFromAux] at h
    by_cases hb : eq item b = true
    · rw [if_pos hb] at h
      obtain rfl : i = j := by injection h
      exact ⟨le_rfl, b, by simp [Nat.sub_self], hb⟩
    · rw [if_neg hb] at h
      obtain ⟨hij, x, hget, hx⟩ := ih (i + 1) j h
      refine ⟨by omega, x, ?_, hx⟩
      have hidx : j - i = (j - (i + 1)) + 1 := by omega
      rw [hidx, List.getElem?_cons_succ]
      exact hget

theorem findIndexFrom_some (s : AWOI α) (eq : α → α → Bool) (item : α)
    (fromIndex j : Nat) (h : s.findIndexFrom eq item fromIndex = some j) :
    fromIndex ≤ j ∧ ∃ x, s.array[j]? = some x ∧ eq item x = true := by
  rw [AWOI.findIndexFrom] at h
  obtain ⟨hij, x, hget, hx⟩ := findIdxFromAux_some eq item _ fromIndex j h
  refine ⟨hij, x, ?_, hx⟩
  rw [List.getElem?_drop] at hget
  have : fromIndex + (j - fromIndex) = j := by omega
  rwa [this] at hget

theorem isRemoval_true_lt [Inhabited α] (s : AWOI α) (eq : α → α → Bool)
    (index : Nat) (newArray : List α)
    (h : s.isRemoval eq index newArray = true) : index < s.array.length := by
  by_contra hge
  have hnone : s.array[index]? = none := List.getElem?_eq_none (by omega)
  rw [AWOI.isRemoval, hnone] at h
  simp at h

theorem isNoop_true_spec [Inhabited α] (s : AWOI α) (eq : α → α → Bool)
    (index : Nat) (newArray : List α)
    (h : s.isNoop eq index newArray = true) :
    ∃ x, s.array[index]? = some x ∧ eq x (newArray.getD index default) = true := by
  rw [AWOI.isNoop] at h
  cases hget : s.array[index]? with
  | none => rw [hget] at h; simp at h
  | some x => rw [hget] at h; exact ⟨x, rfl, h⟩

/-- The state invariant of the scanning loop: if the working copy agrees with
the new array on the first `index` positions, then — with an equality
predicate that decides real equality — the final working copy extends the
whole new array.  The measure hypothesis shows the chosen fuel is never
exhausted. -/
theorem diffLoop_array_spec [Inhabited α] (eq : α → α → Bool)
    (heq : ∀ a b, eq a b = true ↔ a = b) (newArray : List α) :
    ∀ (fuel : Nat) (s : AWOI α) (index : Nat),
      2 * (newArray.length - index) + s.array.length < fuel →
      index ≤ s.array.length →
      s.array.take index = newArray.take index →
      newArray.length ≤ (diffLoop eq newArray fuel s index).2.array.length ∧
      (diffLoop eq newArray fuel s index).2.array.take newArray.length = newArray := by
  intro fuel
  induction fuel with
  | zero => intro s index hm; omega
  | succ fuel ih =>
    intro s index hm hidx hpre
    rw [diffLoop]
    by_cases hlt : index < newArray.length
    · rw [if_pos hlt]
      by_cases hrem : s.isRemoval eq index newArray = true
      · rw [if_pos hrem]
        have hlen : index < s.array.length := isRemoval_true_lt s eq index newArray hrem
        simp only [AWOI.removeItem]
        apply ih
        · rw [eraseIdx_length_of_lt _ _ hlen]; omega
        · rw [eraseIdx_length_of_lt _ _ hlen]; omega
        · rw [take_eraseIdx_self]; exact hpre
      · rw [if_neg hrem]
        by_cases hnoop : s.isNoop eq index newArray = true
        · rw [if_pos hnoop]
          obtain ⟨x, hget, hx⟩ := isNoop_true_spec s eq index newArray hnoop
          have hvlen : index < s.array.length := by
            by_contra hge
            rw [List.getElem?_eq_none (by omega)] at hget
            exact Option.noConfusion hget
          have hnew : newArray.getD index default = newArray.get ⟨index, hlt⟩ := by
            simp [List.getD, List.getElem?_eq_getElem hlt]
          have hxval : x = newArray.get ⟨index, hlt⟩ := by
            rw [← hnew]; exact (heq _ _).1 hx
          simp only []
          apply ih
          · omega
          · omega
          · rw [List.take_succ, List.take_succ, hpre, hget,
              List.getElem?_eq_getElem hlt]
            simp [hxval]
        · rw [if_neg hnoop]
          by_cases hadd : s.isAddition eq (newArray.getD index default) index = true
          · rw [if_pos hadd]
            simp only [AWOI.addItem]
            apply ih
            · rw [spliceInsert_length]; omega
            · rw [spliceInsert_length]; omega
            · rw [spliceInsert_take_succ _ _ _ hidx, hpre]
              have hval : newArray.getD index default = newArray.get ⟨index, hlt⟩ := by
                rw [List.getD_eq_getElem?_getD, List.getElem?_eq_getElem hlt]
                rfl
              rw [hval, List.take_succ, List.getElem?_eq_getElem hlt]
              simp
          · rw [if_neg hadd]
            obtain ⟨j, hfind⟩ : ∃ j, s.findIndexFrom eq (newArray.getD index default) index = some j := by
              rw [AWOI.isAddition] at hadd
              cases hf : s.findIndexFrom eq (newArray.getD index default) index with
              | none => rw [hf] at hadd; simp at hadd
              | some j => exact ⟨j, rfl⟩
            obtain ⟨hij, x, hget, hx⟩ :=
              findIndexFrom_some s eq (newArray.getD index default) index j hfind
            have hjlen : j < s.array.length := by
              by_contra hge
              rw [List.getElem?_eq_none (by omega)] at hget
              exact Option.noConfusion hget
            have hnew : newArray.getD index default = newArray.get ⟨index, hlt⟩ := by
              simp [List.getD, List.getElem?_eq_getElem hlt]
            have hxval : x = newArray.get ⟨index, hlt⟩ := by
              rw [← hnew]; exact ((heq _ _).1 hx).symm
            simp only [AWOI.moveItem, hfind, Option.getD_some]
            have hmoved : s.array.getD j default = x := by
              simp [List.getD, hget]
            have herase : (s.array.eraseIdx j).length = s.array.length - 1 :=
              eraseIdx_length_of_lt _ _ hjlen
            apply ih
            · rw [spliceInsert_length, herase]; omega
            · rw [spliceInsert_length, herase]; omega
            · rw [spliceInsert_take_succ _ _ _ (by omega), eraseIdx_take _ _ _ hij,
                hpre]
              have hval : s.array.getD j default = x := by
                rw [List.getD_eq_getElem?_getD, hget]
                rfl
              rw [hval, hxval, List.take_succ, List.getElem?_eq_getElem hlt]
              simp
    · rw [if_neg hlt]
      constructor
      · show newArray.length ≤ s.array.length
        omega
      · show s.array.take newArray.length = newArray
        have h1 : s.array.take index = newArray := by
          rw [hpre]; exact List.take_of_length_le (by omega)
        calc (s.array.take newArray.length)
            = (s.array.take index).take newArray.length := by
              rw [List.take_take, Nat.min_eq_left (by omega)]
          _ = newArray.take newArray.length := by rw [h1]
          _ = newArray := List.take_of_length_le le_rfl

/-- Replaying the operations emitted by the scanning loop on a plain list
tracks the working copy exactly. -/
theorem diffLoop_replay [Inhabited α] (eq : α → α → Bool) (newArray : List α) :
    ∀ (fuel : Nat) (s : AWOI α) (index : Nat),
      applyOps (diffLoop eq newArray fuel s index).1 s.array
        = (diffLoop eq newArray fuel s index).2.array := by
  intro fuel
  induction fuel with
  | zero => intro s index; rfl
  | succ fuel ih =>
    intro s index
    rw [diffLoop]
    by_cases hlt : index < newArray.length
    · rw [if_pos hlt]
      by_cases hrem : s.isRemoval eq index newArray = true
      · rw [if_pos hrem]
        exact ih (s.removeItem index).2 index
      · rw [if_neg hrem]
        by_cases hnoop : s.isNoop eq index newArray = true
        · rw [if_pos hnoop]
          exact ih s (index + 1)
        · rw [if_neg hnoop]
          by_cases hadd : s.isAddition eq (newArray.getD index default) index = true
          · rw [if_pos hadd]
            exact ih (s.addItem (newArray.getD index default) index).2 (index + 1)
          · rw [if_neg hadd]
            exact ih (s.moveItem eq (newArray.getD index default) index).2 (index + 1)
    · rw [if_neg hlt]; rfl

theorem removeItemsAfterGo_replay [Inhabited α] :
    ∀ (fuel : Nat) (s : AWOI α) (index : Nat),
      applyOps (removeItemsAfterGo fuel s index).1 s.array
        = (removeItemsAfterGo fuel s index).2.array := by
  intro fuel
  induction fuel with
  | zero => intro s index; rfl
  | succ fuel ih =>
    intro s index
    rw [removeItemsAfterGo]
    by_cases h : s.array.length > index
    · rw [if_pos h]
      exact ih (s.removeItem index).2 index
    · rw [if_neg h]; rfl

theorem removeItemsAfterGo_array [Inhabited α] :
    ∀ (fuel : Nat) (s : AWOI α) (index : Nat),
      s.array.length - index ≤ fuel →
      (removeItemsAfterGo fuel s index).2.array = s.array.take index := by
  intro fuel
  induction fuel with
  | zero =>
    intro s index hf
    show s.array = s.array.take index
    exact (List.take_of_length_le (by omega)).symm
  | succ fuel ih =>
    intro s index hf
    rw [removeItemsAfterGo]
    by_cases h : s.array.length > index
    · rw [if_pos h]
      simp only [AWOI.removeItem]
      rw [ih _ index (by rw [eraseIdx_length_of_lt _ _ h]; omega)]
      exact take_eraseIdx_self _ _
    · rw [if_neg h]
      show s.array = s.array.take index
      exact (List.take_of_length_le (by omega)).symm

/-- **C1 (amended).** For an equality predicate that decides real equality of
items — in particular the default primitive-equality predicate — applying the
operation list emitted by `arraysDiffSequence` to the old sequence (REMOVE
splices out at `index`, ADD splices the item in at `index`, MOVE relocates
the matched item from `fromIndex` to `index`, NOOP leaves the sequence
alone) yields exactly the new sequence. -/
theorem arraysDiffSequence_roundTrip [Inhabited α] (oldArray newArray : List α)
    (eq : α → α → Bool) (heq : ∀ a b, eq a b = true ↔ a = b) :
    applyOps (arraysDiffSequence oldArray newArray eq) oldArray = newArray := by
  unfold arraysDiffSequence
  simp only [AWOI.removeItemsAfter]
  have h0 : (AWOI.init oldArray : AWOI α).array = oldArray := rfl
  have hmain := diffLoop_array_spec eq heq newArray
    (2 * newArray.length + oldArray.length + 1) (AWOI.init oldArray) 0
    (by rw [h0]; omega) (by rw [h0]; omega) (by simp)
  rw [applyOps, List.foldl_append, ← applyOps, ← applyOps]
  have hreplay : applyOps
      (diffLoop eq newArray (2 * newArray.length + oldArray.length + 1)
        (AWOI.init oldArray) 0).1 oldArray
      = (diffLoop eq newArray (2 * newArray.length + oldArray.length + 1)
        (AWOI.init oldArray) 0).2.array :=
    diffLoop_replay eq newArray _ (AWOI.init oldArray) 0
  rw [hreplay, removeItemsAfterGo_replay,
    removeItemsAfterGo_array _ _ _ (Nat.sub_le _ _)]
  exact hmain.2

/-- Witness for `arraysDiffSequence_roundTrip`: replaying the diff of
`[5,1,2,9]` against `[2,7,1]` under primitive equality reproduces
`[2,7,1]`. -/
theorem arraysDiffSequence_roundTrip_witness :
    applyOps (arraysDiffSequence [5, 1, 2, 9] [2, 7, 1] (fun (a b : Nat) => a == b))
      [5, 1, 2, 9] = [2, 7, 1] :=
  arraysDiffSequence_roundTrip [5, 1, 2, 9] [2, 7, 1] _ (fun _ _ => beq_iff_eq)

/-- **C1 (counterexample).** As stated — quantified over *every* equality
predicate — the round-trip claim is false: with the predicate that considers
any two items equal, diffing `[0]` against `[1]` emits a single NOOP, and
applying it to `[0]` yields `[0]`, not `[1]`. -/
theorem arraysDiffSequence_roundTrip_cex :
    applyOps (arraysDiffSequence [0] [1] (fun (_ _ : Nat) => true)) [0] ≠ [1] := by
  decide

/-- **C8.** Diffing `[A,B,C]` against `[C,B,A]` under primitive equality
(with `A,B,C` the distinct primitives `1,2,3`) emits zero ADD operations and
zero REMOVE operations: every emitted operation is a MOVE or a NOOP. -/
theorem arraysDiffSequence_pure_reorder :
    (arraysDiffSequence [1, 2, 3] [3, 2, 1] (fun (a b : Nat) => a == b)).countP
        (fun op => op.isAdd) = 0 ∧
    (arraysDiffSequence [1, 2, 3] [3, 2, 1] (fun (a b : Nat) => a == b)).countP
        (fun op => op.isRemove) = 0 ∧
    (arraysDiffSequence [1, 2, 3] [3, 2, 1] (fun (a b : Nat) => a == b)).all
        (fun op => op.isMoveOrNoop) = true := by
  decide

/-! ## Node equality (claim C2) -/

/-- **C2.** `areNodesEqual` is variant-gated (different variants are never
equal); any two text nodes are equal regardless of their string values; any
two fragment nodes are equal regardless of their children; two element nodes
are equal iff they share the tag and the optional key prop; two
component-reference nodes are equal iff they share the component definition
and the optional key prop; and equality is reflexive. -/
theorem areNodesEqual_spec :
    (∀ a b : VNode, a.domType ≠ b.domType → areNodesEqual a b = false) ∧
    (∀ v w : String, areNodesEqual (.text v) (.text w) = true) ∧
    (∀ cs ds : List VNode, areNodesEqual (.fragment cs) (.fragment ds) = true) ∧
    (∀ (t1 t2 : String) (p1 p2 : Props) (c1 c2 : List VNode),
      areNodesEqual (.element t1 p1 c1) (.element t2 p2 c2) = true ↔
        t1 = t2 ∧ propsKey p1 = propsKey p2) ∧
    (∀ (k1 k2 : Nat) (p1 p2 : Props) (c1 c2 : List VNode),
      areNodesEqual (.component k1 p1 c1) (.component k2 p2 c2) = true ↔
        k1 = k2 ∧ propsKey p1 = propsKey p2) ∧
    (∀ a : VNode, areNodesEqual a a = true) := by
  refine ⟨?_, ?_, ?_, ?_, ?_, ?_⟩
  · intro a b h
    cases a <;> cases b <;> first
      | rfl
      | exact absurd rfl h
  · intro v w; rfl
  · intro cs ds; rfl
  · intro t1 t2 p1 p2 c1 c2
    simp [areNodesEqual, VNode.domType]
  · intro k1 k2 p1 p2 c1 c2
    simp [areNodesEqual, VNode.domType]
  · intro a
    cases a <;> simp [areNodesEqual, VNode.domType]

/-- Witness for `areNodesEqual_spec`: a text node and a fragment node have
different variants and are not equal. -/
theorem areNodesEqual_spec_witness :
    areNodesEqual (.text "x") (.fragment []) = false :=
  areNodesEqual_spec.1 (.text "x") (.fragment []) (by decide)

/-! ## Prop merging and the component instance (claims C3 and C10) -/

theorem find?_key_filter (n : Props) (k : String) (q : String × String → Bool)
    (hq : ∀ v, q (k, v) = true) :
    List.find? (fun e => e.1 == k) (n.filter q) = List.find? (fun e => e.1 == k) n := by
  induction n with
  | nil => rfl
  | cons e rest ih =>
    by_cases hqe : q e = true
    · rw [List.filter_cons_of_pos hqe]
      simp only [List.find?]
      cases hpe : (e.1 == k : Bool) <;> simp [hpe, ih]
    · have hek : (e.1 == k : Bool) = false := by
        by_contra hbeq
        have h1 : (e.1 == k : Bool) = true := by
          cases h : (e.1 == k : Bool)
          · exact absurd h hbeq
          · rfl
        have h2 : e.1 = k := by simpa using h1
        have h3 : q (k, e.2) = true := hq e.2
        rw [← h2] at h3
        exact hqe h3
      rw [List.filter_cons_of_neg (by simp [hqe])]
      simp only [List.find?, hek]
      exact ih

/-- `{...o, ...n}` looks a key up in the new bag first, falling back to the
old bag. -/
theorem lookupProp_mergeProps (o n : Props) (k : String) :
    lookupProp (mergeProps o n) k = (lookupProp n k).or (lookupProp o k) := by
  show (List.find? (fun e => e.1 == k)
      (o.map (fun e => (e.1, (lookupProp n e.1).getD e.2)) ++
        n.filter (fun e => (lookupProp o e.1).isNone))).map (fun e => e.2)
    = (lookupProp n k).or (lookupProp o k)
  rw [List.find?_append, List.find?_map]
  have hpf : ((fun e : String × String => e.1 == k) ∘
      (fun e : String × String => (e.1, (lookupProp n e.1).getD e.2)))
      = (fun e : String × String => e.1 == k) := rfl
  rw [hpf]
  cases ho : o.find? (fun e : String × String => e.1 == k) with
  | none =>
    have hok : lookupProp o k = none := by
      unfold lookupProp
      rw [ho]
      rfl
    rw [find?_key_filter n k (fun e => (lookupProp o e.1).isNone) (fun v => by
      show (lookupProp o k).isNone = true
      rw [hok]
      rfl)]
    show lookupProp n k = (lookupProp n k).or (lookupProp o k)
    rw [hok]
    cases hn : lookupProp n k <;> rfl
  | some e =>
    have hek : e.1 = k := by
      have := List.find?_some ho
      simpa using this
    have hok : lookupProp o k = some e.2 := by
      unfold lookupProp
      rw [ho]
      rfl
    show some ((lookupProp n e.1).getD e.2) = (lookupProp n k).or (lookupProp o k)
    rw [hek, hok]
    cases hn : lookupProp n k <;> rfl

theorem patchInternal_fst (c : CompInst) : (patchInternal c).1 = c := by
  unfold patchInternal
  split <;> rfl

/-- **C3 (amended).** Patching an equal-matched component-reference node
keeps the existing backing instance (same identity, same local state) and
*shallow-merges* the new props over the old ones: a key present in the new
props takes the new value, but a key of the old props absent from the new
props survives the patch; the external children are replaced by the new
node's children. -/
theorem patchComponent_merges_props (c : CompInst) (newChildren : List VNode)
    (newProps : Props) :
    (patchComponent c newChildren newProps).1.instId = c.instId ∧
    (patchComponent c newChildren newProps).1.state = c.state ∧
    (patchComponent c newChildren newProps).1.children = newChildren ∧
    (patchComponent c newChildren newProps).1.props = mergeProps c.props newProps ∧
    (∀ k, lookupProp (patchComponent c newChildren newProps).1.props k
        = (lookupProp newProps k).or (lookupProp c.props k)) := by
  unfold patchComponent updateProps setExternalContent
  rw [patchInternal_fst]
  refine ⟨rfl, rfl, rfl, rfl, ?_⟩
  intro k
  exact lookupProp_mergeProps c.props newProps k

/-- **C3 (counterexample).** The claim that the instance's props equal
exactly the new props, with no keys surviving from the old props, fails:
patching an instance with props `{a: "1"}` against new props `{b: "2"}`
yields `{a: "1", b: "2"}` — the old key `a` survives. -/
theorem patchComponent_props_cex :
    (patchComponent ⟨7, [("a", "1")], [], [], true⟩ [] [("b", "2")]).1.props
        = [("a", "1"), ("b", "2")] ∧
    lookupProp (patchComponent ⟨7, [("a", "1")], [], [], true⟩ [] [("b", "2")]).1.props "a"
        = some "1" ∧
    (patchComponent ⟨7, [("a", "1")], [], [], true⟩ [] [("b", "2")]).1.props
        ≠ [("b", "2")] := by
  refine ⟨by decide, by decide, by decide⟩

/-- **C10.** Calling `updateState(s)` on an unmounted component instance
raises the synchronous `'Component is not mounted'` error, but the local
state has already been shallow-merged with `s` when the error is raised, so
the state does not survive the call unchanged. -/
theorem updateState_unmounted_merges_then_throws (c : CompInst) (s : Props)
    (h : c.isMounted = false) :
    (updateState c s).2 = some "Component is not mounted" ∧
    (updateState c s).1.state = mergeProps c.state s := by
  unfold updateState patchInternal
  rw [if_neg (by simp [h])]
  exact ⟨rfl, rfl⟩

/-- Witness for `updateState_unmounted_merges_then_throws`: an unmounted
instance with state `{x: "1"}` updated with `{y: "2"}` throws, and its state
is the merged `{x: "1", y: "2"}` — changed, not left as it was. -/
theorem updateState_unmounted_merges_then_throws_witness :
    (updateState ⟨3, [], [("x", "1")], [], false⟩ [("y", "2")]).2
        = some "Component is not mounted" ∧
    (updateState ⟨3, [], [("x", "1")], [], false⟩ [("y", "2")]).1.state
        = [("x", "1"), ("y", "2")] := by
  have h := updateState_unmounted_merges_then_throws
    ⟨3, [], [("x", "1")], [], false⟩ [("y", "2")] rfl
  exact ⟨h.1, by rw [h.2]; decide⟩

/-! ## The mount-engine insertion contract (claim C7) -/

/-- **C7.** The `insert` position contract of `mount-dom.js`: a `null`
position appends; a negative position raises the synchronous
`'Index must be a positive integer'` error; a position at or beyond the
current child count appends; any other position inserts the new unit before
the existing child currently at that index. -/
theorem insert_position_contract (el : Nat) (children : List Nat) :
    (insert el children none = .ok (children ++ [el])) ∧
    (∀ i : Int, i < 0 →
      insert el children (some i)
        = .error ("Index must be a positive integer, got " ++ toString i)) ∧
    (∀ i : Int, 0 ≤ i → children.length ≤ i.toNat →
      insert el children (some i) = .ok (children ++ [el])) ∧
    (∀ i : Int, 0 ≤ i → i.toNat < children.length →
      insert el children (some i)
        = .ok (children.take i.toNat ++ el :: children.drop i.toNat)) := by
  refine ⟨rfl, ?_, ?_, ?_⟩
  · intro i hi
    show (if i < 0 then
        Except.error ("Index must be a positive integer, got " ++ toString i)
      else if i.toNat ≥ children.length then Except.ok (children ++ [el])
      else Except.ok (spliceInsert children i.toNat el)) = _
    rw [if_pos hi]
  · intro i hi hlen
    show (if i < 0 then
        Except.error ("Index must be a positive integer, got " ++ toString i)
      else if i.toNat ≥ children.length then Except.ok (children ++ [el])
      else Except.ok (spliceInsert children i.toNat el)) = _
    rw [if_neg (by omega), if_pos (by omega)]
  · intro i hi hlen
    show (if i < 0 then
        Except.error ("Index must be a positive integer, got " ++ toString i)
      else if i.toNat ≥ children.length then Except.ok (children ++ [el])
      else Except.ok (spliceInsert children i.toNat el)) = _
    rw [if_neg (by omega), if_neg (by omega)]
    rfl

/-- Witness for `insert_position_contract` at concrete inputs: inserting `9`
into `[1, 2]` at `-2` throws, at `5` appends, and at `1` lands before the
current second child. -/
theorem insert_position_contract_witness :
    insert 9 [1, 2] (some (-2)) = .error "Index must be a positive integer, got -2" ∧
    insert 9 [1, 2] (some 5) = .ok [1, 2, 9] ∧
    insert 9 [1, 2] (some 1) = .ok [1, 9, 2] := by
  refine ⟨?_, ?_, ?_⟩
  · rw [(insert_position_contract 9 [1, 2]).2.1 (-2) (by decide)]
    rfl
  · rw [(insert_position_contract 9 [1, 2]).2.2.1 5 (by decide) (by decide)]
    rfl
  · rw [(insert_position_contract 9 [1, 2]).2.2.2 1 (by decide) (by decide)]
    rfl

/-! ## Hook scheduling during mount (claim C6) -/

mutual

theorem mountDOMHooks_fired : ∀ (t : MountTree) (q : HookQueue),
    (mountDOMHooks t q).fired = q.fired
  | .text _, _ => rfl
  | .element _ children, q => mountChildrenHooks_fired children q
  | .fragment children, q => mountChildrenHooks_fired children q
  | .component id rendered, q => by
      show (enqueueHook (mountDOMHooks rendered q) id).fired = q.fired
      rw [enqueueHook]
      exact mountDOMHooks_fired rendered q

theorem mountChildrenHooks_fired : ∀ (l : List MountTree) (q : HookQueue),
    (mountChildrenHooks l q).fired = q.fired
  | [], _ => rfl
  | c :: cs, q => by
      show (mountChildrenHooks cs (mountDOMHooks c q)).fired = q.fired
      rw [mountChildrenHooks_fired cs, mountDOMHooks_fired c]

end

mutual

theorem mountDOMHooks_jobs : ∀ (t : MountTree) (q : HookQueue),
    (mountDOMHooks t q).jobs = q.jobs ++ (mountDOMHooks t ⟨[], []⟩).jobs
  | .text _, _ => by simp [mountDOMHooks]
  | .element tag children, q => by
      show (mountChildrenHooks children q).jobs
          = q.jobs ++ (mountDOMHooks (.element tag children) ⟨[], []⟩).jobs
      rw [mountChildrenHooks_jobs children q]
      rfl
  | .fragment children, q => by
      show (mountChildrenHooks children q).jobs
          = q.jobs ++ (mountDOMHooks (.fragment children) ⟨[], []⟩).jobs
      rw [mountChildrenHooks_jobs children q]
      rfl
  | .component id rendered, q => by
      show (enqueueHook (mountDOMHooks rendered q) id).jobs
          = q.jobs ++ (enqueueHook (mountDOMHooks rendered ⟨[], []⟩) id).jobs
      rw [enqueueHook, enqueueHook]
      simp only []
      rw [mountDOMHooks_jobs rendered q]
      simp

theorem mountChildrenHooks_jobs : ∀ (l : List MountTree) (q : HookQueue),
    (mountChildrenHooks l q).jobs = q.jobs ++ (mountChildrenHooks l ⟨[], []⟩).jobs
  | [], _ => by simp [mountChildrenHooks]
  | c :: cs, q => by
      show (mountChildrenHooks cs (mountDOMHooks c q)).jobs
          = q.jobs ++ (mountChildrenHooks cs (mountDOMHooks c ⟨[], []⟩)).jobs
      rw [mountChildrenHooks_jobs cs (mountDOMHooks c q),
        mountChildrenHooks_jobs cs (mountDOMHooks c ⟨[], []⟩),
        mountDOMHooks_jobs c q]
      simp

end

/-- **C6 (amended).** Mounting a tree schedules every component's
mount-complete hook on the deferred queue and never invokes one inline: no
hook fires during the mount, the hooks are appended in FIFO order, and they
fire — at the queue drain after the mount call returns — in the order the
component mounts *complete*: for a component-reference node the hooks of the
components inside its rendered subtree are enqueued before its own hook
(inner before outer). -/
theorem mountDOM_hook_schedule :
    (∀ (t : MountTree) (q : HookQueue), (mountDOMHooks t q).fired = q.fired) ∧
    (∀ (t : MountTree) (q : HookQueue),
      (mountDOMHooks t q).jobs = q.jobs ++ hookOrder t) ∧
    (∀ (id : Nat) (rendered : MountTree),
      hookOrder (.component id rendered) = hookOrder rendered ++ [id]) ∧
    (∀ t : MountTree, (drainQueue (mountDOMHooks t ⟨[], []⟩)).fired = hookOrder t) := by
  refine ⟨mountDOMHooks_fired, ?_, ?_, ?_⟩
  · intro t q
    exact mountDOMHooks_jobs t q
  · intro id rendered
    show (enqueueHook (mountDOMHooks rendered ⟨[], []⟩) id).jobs
        = hookOrder rendered ++ [id]
    rfl
  · intro t
    show (mountDOMHooks t ⟨[], []⟩).fired ++ (mountDOMHooks t ⟨[], []⟩).jobs = hookOrder t
    rw [mountDOMHooks_fired t ⟨[], []⟩]
    exact List.nil_append _

/-- **C6 (counterexample).** The claimed outer-before-inner firing order is
false: mounting `Component 0` whose render yields a `div` containing
`Component 1`, the enqueued (hence firing) order is `[1, 0]` — the inner
component's hook fires first, because the inner mount completes inside
`createComponentNode` of the outer component, before the outer's
`enqueueJob` runs. -/
theorem mountDOM_hook_schedule_cex :
    hookOrder (.component 0 (.element "div" [.component 1 (.text "x")])) = [1, 0] ∧
    ([1, 0] : List Nat) ≠ [0, 1] := by
  refine ⟨by decide, by decide⟩

/-! ## Scheduler failure handling (claim C4) -/

/-- **C4 (code bug).** `processJobs` catches only *rejected awaitables*; a
job that throws synchronously — which is what a user hook raising an
exception produces — escapes the drain loop.  At the failing input
`[job 0 throws "boom", job 1 ok]`: job 0 runs and its exception escapes,
job 1 never executes and is left in the queue, nothing is reported through
the diagnostic channel, and `isScheduled` stays `true` (the reset after the
loop is skipped), contradicting the claim that every failure is caught and
all later-enqueued jobs still execute.  A rejected awaitable, by contrast,
is reported and does not stop the queue. -/
theorem processJobs_sync_throw_aborts_queue :
    processJobs ⟨[(0, .throws "boom"), (1, .ok)], true, [], []⟩
        = (⟨[(1, .ok)], true, [0], []⟩, some "boom") ∧
    (1 : Nat) ∉ (processJobs ⟨[(0, .throws "boom"), (1, .ok)], true, [], []⟩).1.executed ∧
    processJobs ⟨[(0, .rejected "late"), (1, .ok)], true, [], []⟩
        = (⟨[], false, [0, 1], ["[scheduler]: late"]⟩, none) := by
  refine ⟨by decide, by decide, by decide⟩

/-! ## The MOVE case of `patchChildren` (claim C5) -/

/-- **C5 (code bug).** For a moved child owning several live units (a
component-reference contributing multiple elements), `patchChildren` does
*not* relocate all units and then patch once: the `patchDOM` call sits
inside the per-element `forEach`, so the trace at the failing input (a
component whose `elements` are `[10, 11]`) interleaves the moves with *two*
recursive patch calls, instead of the specified two moves followed by
exactly one patch. -/
theorem patchChildren_move_patches_per_element :
    patchChildrenMoveTrace (moveElements true [10, 11] 10) (some 5)
        = [.insertBeforeEl 10 (some 5), .patchCall,
           .insertBeforeEl 11 (some 5), .patchCall] ∧
    (patchChildrenMoveTrace (moveElements true [10, 11] 10) (some 5)).countP
        (fun a => a == DomAction.patchCall) = 2 ∧
    patchChildrenMoveTrace (moveElements true [10, 11] 10) (some 5)
        ≠ patchChildrenMoveTraceSpec (moveElements true [10, 11] 10) (some 5) := by
  refine ⟨by decide, by decide, by decide⟩

end FrontendFramework
